import Mathlib

/-!
Verification of the `iwallet` utilities of `go-iost` (`iwallet/utils.go`).

Go strings are embedded as lists of characters (`Str`), Go slices as Lean
lists, and the fallible file-system and SDK collaborators as explicit
environments of functions, so that every theorem quantifies over all their
behaviours.  Each definition mirrors one Go function of the source file.
-/

namespace Iwallet

/-- Go strings, embedded as lists of characters. -/
abbrev Str := List Char

/-- Converts a Lean string literal to the `Str` embedding. -/
def strL (s : String) : Str := s.data

/-- Go `strings.Split(s, sep)` for a one-character separator `sep`:
splits around every occurrence of `sep`; `Split("", sep) = [""]`,
and a trailing separator yields a trailing empty part. -/
def goSplit (sep : Char) : Str → List Str
  | [] => [[]]
  | c :: rest =>
    let r := goSplit sep rest
    if c = sep then [] :: r
    else (c :: r.headD []) :: r.tail

theorem goSplit_ne_nil (sep : Char) (s : Str) : goSplit sep s ≠ [] := by
  cases s with
  | nil => simp [goSplit]
  | cons c rest =>
    simp only [goSplit]
    split <;> simp

/-- The number of parts `goSplit` produces is one more than the number of
occurrences of the separator. -/
theorem goSplit_length (sep : Char) (s : Str) :
    (goSplit sep s).length = s.count sep + 1 := by
  induction s with
  | nil => simp [goSplit]
  | cons c rest ih =>
    simp only [goSplit]
    by_cases h : c = sep
    · simp [h, List.count_cons, ih]
    · have hne := goSplit_ne_nil sep rest
      have hlen : 1 ≤ (goSplit sep rest).length := List.length_pos.mpr hne
      have hsc : sep ≠ c := fun hc => h hc.symm
      simp only [if_neg h, List.length_cons, List.length_tail, List.count_cons,
        beq_iff_eq, if_neg h]
      omega

/-! ## Signer specification validation (`checkSigners`) -/

/-- Error raised by `checkSigners`; the Go code produces
`fmt.Errorf("signer %v should contain '@'", s)`, carrying the offending
entry. -/
inductive SignerErr where
  | invalidSignerFormat (entry : Str)
  deriving DecidableEq

/-- Embeds `checkSigners` of `iwallet/utils.go`: for each signer `s` it
requires `len(strings.Split(s, "@")) == 2` and fails on the first entry
violating it. -/
def checkSigners : List Str → Except SignerErr Unit
  | [] => .ok ()
  | s :: rest =>
    if (goSplit '@' s).length = 2 then checkSigners rest
    else .error (.invalidSignerFormat s)

theorem checkSigners_ok_iff (signers : List Str) :
    checkSigners signers = .ok () ↔ ∀ s ∈ signers, (goSplit '@' s).length = 2 := by
  induction signers with
  | nil => simp [checkSigners]
  | cons s rest ih =>
    simp only [checkSigners]
    by_cases h : (goSplit '@' s).length = 2
    · simp [h, ih]
    · simp [h]

theorem checkSigners_first_bad (pre : List Str) (s : Str) (post : List Str)
    (hpre : ∀ p ∈ pre, (goSplit '@' p).length = 2)
    (hs : (goSplit '@' s).length ≠ 2) :
    checkSigners (pre ++ s :: post) = .error (.invalidSignerFormat s) := by
  induction pre with
  | nil => simp [checkSigners, hs]
  | cons p pre ih =>
    have hp : (goSplit '@' p).length = 2 := hpre p (by simp)
    simp only [List.cons_append, checkSigners, if_pos hp]
    exact ih fun q hq => hpre q (by simp [hq])

/-- C7: `checkSigners` succeeds exactly when every entry contains exactly one
`@` character; the first entry with zero or several `@`s fails with an
invalid-signer-format error naming that entry; entries with empty account or
permission parts (such as `"@"` and `"alice@"`) are accepted. -/
theorem C7_checkSigners_exactly_one_at :
    (∀ signers : List Str,
        checkSigners signers = .ok () ↔ ∀ s ∈ signers, s.count '@' = 1) ∧
    (∀ (pre : List Str) (s : Str) (post : List Str),
        (∀ p ∈ pre, p.count '@' = 1) → s.count '@' ≠ 1 →
        checkSigners (pre ++ s :: post) = .error (.invalidSignerFormat s)) ∧
    checkSigners [strL "@", strL "alice@"] = .ok () := by
  have key : ∀ s : Str, (goSplit '@' s).length = 2 ↔ s.count '@' = 1 := by
    intro s
    rw [goSplit_length]
    omega
  refine ⟨?_, ?_, ?_⟩
  · intro signers
    rw [checkSigners_ok_iff]
    exact forall₂_congr fun s _ => key s
  · intro pre s post hpre hs
    exact checkSigners_first_bad pre s post
      (fun p hp => (key p).mpr (hpre p hp)) (fun h => hs ((key s).mp h))
  · rfl

/-- Witness for C7: the second clause applied to the concrete list
`["alice"]`, whose single entry has no `@` at all. -/
theorem C7_checkSigners_witness :
    checkSigners [strL "alice"] = .error (.invalidSignerFormat (strL "alice")) :=
  C7_checkSigners_exactly_one_at.2.1 [] (strL "alice") []
    (by intro p hp; simp at hp) (by decide)

/-! ## Algorithm lookup (`GetSignAlgoByName`) -/

/-- The two signature algorithms of `crypto.Algorithm` used by this file. -/
inductive Algorithm where
  | ed25519
  | secp256k1
  deriving DecidableEq

/-- Embeds `GetSignAlgoByName`: a `switch` on the name returning
`crypto.Secp256k1` for `"secp256k1"`, `crypto.Ed25519` for `"ed25519"`,
and `crypto.Ed25519` in the default case. -/
def GetSignAlgoByName (name : Str) : Algorithm :=
  if name = strL "secp256k1" then .secp256k1
  else if name = strL "ed25519" then .ed25519
  else .ed25519

/-- C10: every name other than `"secp256k1"` — including `"ed25519"`, any
misspelling, and the empty string — maps to the Ed25519 algorithm; the
function is total, so no name is ever reported as an error. -/
theorem C10_GetSignAlgoByName_default (name : Str)
    (h : name ≠ strL "secp256k1") :
    GetSignAlgoByName name = .ed25519 := by
  unfold GetSignAlgoByName
  rw [if_neg h]
  by_cases h2 : name = strL "ed25519" <;> simp [h2]

/-- Witness for C10 at the concrete misspelled name `"Ed25519x"`. -/
theorem C10_GetSignAlgoByName_witness :
    GetSignAlgoByName (strL "Ed25519x") = .ed25519 :=
  C10_GetSignAlgoByName_default (strL "Ed25519x") (by decide)

/-! ## Account resolution (`loadAccountByName`) -/

/-- Embeds `getAccountDir`: the user home directory (the `homedir`
collaborator, parameterised here as `home`) plus `"/.iwallet"`. -/
def accountDir (home : Str) : Str := home ++ strL "/.iwallet"

/-- Embeds the package-level `ValidSignAlgos = []string{"ed25519", "secp256k1"}`. -/
def ValidSignAlgos : List Str := [strL "ed25519", strL "secp256k1"]

/-- Result of `loadAccountByName`, recording which loader the function
dispatches to and on which file: `loadAccountFromKeyStore(fileName, ...)`
for the consolidated keystore, `loadAccountFromKeyPair(fileName)` for a
per-algorithm plaintext key file.  Both loaders live outside
`iwallet/utils.go`; the claim concerns only the dispatch. -/
inductive AccountLoad where
  | fromKeyStore (path : Str)
  | fromKeyPair (path : Str)
  deriving DecidableEq

/-- Error of `loadAccountByName`: `fmt.Errorf("account not exist")`. -/
inductive LoadErr where
  | accountNotFound
  deriving DecidableEq

/-- The consolidated keystore path `accountDir + "/" + name + ".json"`. -/
def jsonPath (home name : Str) : Str :=
  accountDir home ++ strL "/" ++ name ++ strL ".json"

/-- The per-algorithm plaintext path `accountDir + "/" + name + "_" + algo`. -/
def algoPath (home name algo : Str) : Str :=
  accountDir home ++ strL "/" ++ name ++ strL "_" ++ algo

/-- The fallback loop of `loadAccountByName` over `ValidSignAlgos`:
the first algorithm whose file passes `os.Stat` wins. -/
def algoFileScan (stat : Str → Bool) (home name : Str) :
    List Str → Except LoadErr AccountLoad
  | [] => .error .accountNotFound
  | algo :: rest =>
    if stat (algoPath home name algo) then .ok (.fromKeyPair (algoPath home name algo))
    else algoFileScan stat home name rest

/-- Embeds `loadAccountByName`: first `os.Stat` on the consolidated
`<name>.json`; on success dispatch to the keystore loader; otherwise scan
`ValidSignAlgos` for `<name>_<algo>`; otherwise fail.  `stat p` models
`os.Stat(p)` returning a nil error; the `ensureDecrypt` flag is passed
through to the keystore loader and does not affect the dispatch. -/
def loadAccountByName (stat : Str → Bool) (home name : Str) :
    Except LoadErr AccountLoad :=
  if stat (jsonPath home name) then .ok (.fromKeyStore (jsonPath home name))
  else algoFileScan stat home name ValidSignAlgos

/-- C8: resolution order — the consolidated `<name>.json` is tried first;
only when it is absent are the per-algorithm files scanned, `ed25519`
before `secp256k1`, the first existing one winning; when none exists the
call fails with the account-not-found error. -/
theorem C8_loadAccountByName_resolution (stat : Str → Bool) (home name : Str) :
    (stat (jsonPath home name) = true →
      loadAccountByName stat home name = .ok (.fromKeyStore (jsonPath home name))) ∧
    (stat (jsonPath home name) = false →
      stat (algoPath home name (strL "ed25519")) = true →
      loadAccountByName stat home name =
        .ok (.fromKeyPair (algoPath home name (strL "ed25519")))) ∧
    (stat (jsonPath home name) = false →
      stat (algoPath home name (strL "ed25519")) = false →
      stat (algoPath home name (strL "secp256k1")) = true →
      loadAccountByName stat home name =
        .ok (.fromKeyPair (algoPath home name (strL "secp256k1")))) ∧
    (stat (jsonPath home name) = false →
      stat (algoPath home name (strL "ed25519")) = false →
      stat (algoPath home name (strL "secp256k1")) = false →
      loadAccountByName stat home name = .error .accountNotFound) := by
  refine ⟨fun h1 => ?_, fun h1 h2 => ?_, fun h1 h2 h3 => ?_, fun h1 h2 h3 => ?_⟩
  · simp [loadAccountByName, algoFileScan, ValidSignAlgos, h1]
  · simp [loadAccountByName, algoFileScan, ValidSignAlgos, h1, h2]
  · simp [loadAccountByName, algoFileScan, ValidSignAlgos, h1, h2, h3]
  · simp [loadAccountByName, algoFileScan, ValidSignAlgos, h1, h2, h3]

/-- Witness for C8: with no file present at all, resolution of account
`"acc"` under home `"/root"` fails with the account-not-found error. -/
theorem C8_loadAccountByName_witness :
    loadAccountByName (fun _ => false) (strL "/root") (strL "acc") =
      .error .accountNotFound :=
  (C8_loadAccountByName_resolution (fun _ => false) (strL "/root") (strL "acc")).2.2.2
    rfl rfl rfl

/-! ## Multi-signature authorisation (`handleMultiSig`)

The SDK collaborators (`sdk.LoadKeyPair`, `sdk.GetSignatureOfTx`,
`sdk.LoadProtoStructFromJSONFile`, `sdk.VerifySigForTx`) live outside
`iwallet/utils.go`; they are parameterised as an environment `SdkEnv`, so
all theorems below quantify over every possible behaviour of them.  Key
pairs and signatures are opaque handles. -/

/-- Opaque key-pair handle produced by `sdk.LoadKeyPair`. -/
structure KeyPair where
  id : Nat
  deriving DecidableEq

/-- Opaque signature record (`rpcpb.Signature`). -/
structure Signature where
  id : Nat
  deriving DecidableEq

/-- The `rpcpb.TransactionRequest`: opaque payload plus its mutable
signature list, the only field `handleMultiSig` touches. -/
structure TransactionRequest where
  payload : Nat
  signatures : List Signature
  deriving DecidableEq

/-- Errors of `handleMultiSig`, one per `fmt.Errorf` site:
`conflictingSignatureModes` is `"at least one of --sign_keys and
--with_signs should be empty"`; `keyLoadError f` is `"sign tx with priv
key %v err %v"`; `invalidSignatureRecord f` is `"invalid signature file
%v"`; `signatureVerificationFailed f` is `"sign verify error %v"`. -/
inductive MultiSigErr where
  | conflictingSignatureModes
  | keyLoadError (source : Str)
  | invalidSignatureRecord (source : Str)
  | signatureVerificationFailed (source : Str)
  deriving DecidableEq

/-- Environment of SDK collaborators consumed by `handleMultiSig`.
`loadKeyPair` models `sdk.LoadKeyPair(f, signAlgo)` (error payload
opaque); `loadProtoSig` models `sdk.LoadProtoStructFromJSONFile`
deserialising a signature record (`none` = malformed record). -/
structure SdkEnv where
  loadKeyPair : Str → Except Nat KeyPair
  getSignatureOfTx : TransactionRequest → KeyPair → Signature
  loadProtoSig : Str → Option Signature
  verifySigForTx : TransactionRequest → Signature → Bool

/-- The `signKeys` loop of `handleMultiSig`: load each key, sign the
transaction, collect the signatures in source order; the first failing
load aborts. -/
def signLoop (env : SdkEnv) (t : TransactionRequest) :
    List Str → Except MultiSigErr (List Signature)
  | [] => .ok []
  | f :: rest =>
    match env.loadKeyPair f with
    | .error _ => .error (.keyLoadError f)
    | .ok kp =>
      match signLoop env t rest with
      | .error e => .error e
      | .ok sigs => .ok (env.getSignatureOfTx t kp :: sigs)

/-- The `withSigns` loop of `handleMultiSig`: deserialise each record,
verify it against the transaction, collect in source order; the first
malformed or unverifiable record aborts. -/
def attachLoop (env : SdkEnv) (t : TransactionRequest) :
    List Str → Except MultiSigErr (List Signature)
  | [] => .ok []
  | f :: rest =>
    match env.loadProtoSig f with
    | none => .error (.invalidSignatureRecord f)
    | some sig =>
      if env.verifySigForTx t sig then
        match attachLoop env t rest with
        | .error e => .error e
        | .ok sigs => .ok (sig :: sigs)
      else .error (.signatureVerificationFailed f)

/-- Embeds `handleMultiSig`: rejects the conflicting-mode combination
first, then runs exactly one of the two loops (or neither), and only on
overall success commits the collected list to `t.Signatures`.  The result
pair is the (possibly updated) transaction and the error, mirroring the
in-place mutation of the Go code: the transaction component equals the
input whenever an error is returned. -/
def handleMultiSig (env : SdkEnv) (t : TransactionRequest)
    (withSigns signKeys : List Str) : TransactionRequest × Option MultiSigErr :=
  if withSigns ≠ [] ∧ signKeys ≠ [] then (t, some .conflictingSignatureModes)
  else
    let r :=
      if signKeys ≠ [] then signLoop env t signKeys
      else if withSigns ≠ [] then attachLoop env t withSigns
      else .ok []
    match r with
    | .ok sigs => ({ t with signatures := sigs }, none)
    | .error e => (t, some e)

/-- C1: when both source lists are non-empty, `handleMultiSig` fails with
the conflicting-modes error, leaves the transaction (in particular its
signature list) unchanged, and its outcome is independent of the SDK
environment — no source from either list is processed. -/
theorem C1_handleMultiSig_conflicting (env env2 : SdkEnv)
    (t : TransactionRequest) (withSigns signKeys : List Str)
    (hw : withSigns ≠ []) (hk : signKeys ≠ []) :
    handleMultiSig env t withSigns signKeys =
      (t, some .conflictingSignatureModes) ∧
    handleMultiSig env t withSigns signKeys =
      handleMultiSig env2 t withSigns signKeys := by
  constructor <;> simp [handleMultiSig, hw, hk]

/-- A trivial concrete SDK environment, used only by witnesses. -/
def sampleEnv : SdkEnv where
  loadKeyPair := fun _ => .error 0
  getSignatureOfTx := fun _ _ => ⟨0⟩
  loadProtoSig := fun _ => none
  verifySigForTx := fun _ _ => false

/-- A concrete transaction carrying one pre-existing signature. -/
def sampleTx : TransactionRequest := ⟨5, [⟨1⟩]⟩

/-- Witness for C1: both lists non-empty on concrete inputs. -/
theorem C1_handleMultiSig_witness :
    ([strL "s"] ≠ ([] : List Str)) ∧ ([strL "k"] ≠ ([] : List Str)) ∧
    handleMultiSig sampleEnv sampleTx [strL "s"] [strL "k"] =
      (sampleTx, some .conflictingSignatureModes) :=
  ⟨by decide, by decide,
    (C1_handleMultiSig_conflicting sampleEnv sampleEnv sampleTx
      [strL "s"] [strL "k"] (by decide) (by decide)).1⟩

theorem attachLoop_prefix_error (env : SdkEnv) (t : TransactionRequest)
    (pre rest : List Str)
    (hpre : ∀ g ∈ pre, ∃ s, env.loadProtoSig g = some s ∧
      env.verifySigForTx t s = true) (e : MultiSigErr) :
    attachLoop env t (pre ++ rest) = .error e ↔
      attachLoop env t rest = .error e := by
  induction pre with
  | nil => simp
  | cons g pre ih =>
    obtain ⟨s, hs, hv⟩ := hpre g (by simp)
    have ih2 := ih fun q hq => hpre q (by simp [hq])
    simp only [List.cons_append, attachLoop, hs, hv, if_true]
    cases hA : attachLoop env t (pre ++ rest) with
    | error e2 => rw [hA] at ih2; simpa using ih2
    | ok sigs => rw [hA] at ih2; simpa using ih2

theorem handleMultiSig_attach_error (env : SdkEnv) (t : TransactionRequest)
    (ws : List Str) (t2 : TransactionRequest) (e : MultiSigErr)
    (h : handleMultiSig env t ws [] = (t2, some e)) : t2 = t := by
  by_cases hw : ws = []
  · simp [handleMultiSig, hw] at h
  · simp only [handleMultiSig, hw, ne_eq, not_false_eq_true, true_and,
      not_true_eq_false, false_and, if_false, if_neg, if_true] at h
    revert h
    split
    · intro h; simp_all
    · intro h; simp_all

/-- C3 (attach mode): with the sign-key list empty, letting `f` be the
first source whose record fails to deserialise or to verify (all earlier
sources deserialising and verifying), `handleMultiSig` fails with the
invalid-signature-record error naming `f` when deserialisation fails, and
with the signature-verification error naming `f` when verification fails;
and on any error in attach mode the transaction is returned unchanged —
the signature list is committed only when every source verifies. -/
theorem C3_handleMultiSig_attach (env : SdkEnv) (t : TransactionRequest)
    (pre : List Str) (f : Str) (post : List Str)
    (hpre : ∀ g ∈ pre, ∃ s, env.loadProtoSig g = some s ∧
      env.verifySigForTx t s = true) :
    (env.loadProtoSig f = none →
      handleMultiSig env t (pre ++ f :: post) [] =
        (t, some (.invalidSignatureRecord f))) ∧
    (∀ s, env.loadProtoSig f = some s → env.verifySigForTx t s = false →
      handleMultiSig env t (pre ++ f :: post) [] =
        (t, some (.signatureVerificationFailed f))) ∧
    (∀ (ws : List Str) (t2 : TransactionRequest) (e : MultiSigErr),
      handleMultiSig env t ws [] = (t2, some e) → t2 = t) := by
  have hne : pre ++ f :: post ≠ [] := by simp
  have run : ∀ e : MultiSigErr, attachLoop env t (pre ++ f :: post) = .error e →
      handleMultiSig env t (pre ++ f :: post) [] = (t, some e) := by
    intro e hA
    simp [handleMultiSig, hne, hA]
  refine ⟨fun hf => ?_, fun s hs hv => ?_, handleMultiSig_attach_error env t⟩
  · refine run _ ((attachLoop_prefix_error env t pre (f :: post) hpre _).mpr ?_)
    simp [attachLoop, hf]
  · refine run _ ((attachLoop_prefix_error env t pre (f :: post) hpre _).mpr ?_)
    simp [attachLoop, hs, hv]

/-- Concrete SDK environment for the C3 witness: source `"g"` holds a
record that verifies, source `"bad"` is malformed. -/
def attachEnv : SdkEnv where
  loadKeyPair := fun _ => .error 0
  getSignatureOfTx := fun _ _ => ⟨0⟩
  loadProtoSig := fun f => if f = strL "bad" then none else some ⟨7⟩
  verifySigForTx := fun _ s => s.id == 7

/-- Witness for C3: after the good source `"g"`, the malformed source
`"bad"` aborts with the invalid-signature-record error and the transaction
keeps its original signature list. -/
theorem C3_handleMultiSig_witness :
    (∀ g ∈ [strL "g"], ∃ s, attachEnv.loadProtoSig g = some s ∧
      attachEnv.verifySigForTx sampleTx s = true) ∧
    handleMultiSig attachEnv sampleTx [strL "g", strL "bad"] [] =
      (sampleTx, some (.invalidSignatureRecord (strL "bad"))) := by
  have hpre : ∀ g ∈ [strL "g"], ∃ s, attachEnv.loadProtoSig g = some s ∧
      attachEnv.verifySigForTx sampleTx s = true := by
    intro g hg
    simp only [List.mem_singleton] at hg
    exact ⟨⟨7⟩, by rw [hg]; decide, by decide⟩
  exact ⟨hpre,
    (C3_handleMultiSig_attach attachEnv sampleTx [strL "g"] (strL "bad") []
      hpre).1 (by decide)⟩

/-- Statement helper for C4: the signature `handleMultiSig` produces for
source `f` when its key pair loads successfully (the fallback branch is
never reached under that hypothesis). -/
def sigOfSource (env : SdkEnv) (t : TransactionRequest) (f : Str) : Signature :=
  match env.loadKeyPair f with
  | .ok kp => env.getSignatureOfTx t kp
  | .error _ => env.getSignatureOfTx t ⟨0⟩

theorem signLoop_ok_map (env : SdkEnv) (t : TransactionRequest)
    (ks : List Str) (h : ∀ g ∈ ks, ∃ kp, env.loadKeyPair g = .ok kp) :
    signLoop env t ks = .ok (ks.map (sigOfSource env t)) := by
  induction ks with
  | nil => simp [signLoop]
  | cons g ks ih =>
    obtain ⟨kp, hkp⟩ := h g (by simp)
    have ih2 := ih fun q hq => h q (by simp [hq])
    simp [signLoop, hkp, ih2, sigOfSource]

theorem signLoop_prefix_error (env : SdkEnv) (t : TransactionRequest)
    (pre rest : List Str)
    (hpre : ∀ g ∈ pre, ∃ kp, env.loadKeyPair g = .ok kp) (e : MultiSigErr) :
    signLoop env t (pre ++ rest) = .error e ↔ signLoop env t rest = .error e := by
  induction pre with
  | nil => simp
  | cons g pre ih =>
    obtain ⟨kp, hkp⟩ := hpre g (by simp)
    have ih2 := ih fun q hq => hpre q (by simp [hq])
    simp only [List.cons_append, signLoop, hkp]
    cases hA : signLoop env t (pre ++ rest) with
    | error e2 => rw [hA] at ih2; simpa using ih2
    | ok sigs => rw [hA] at ih2; simpa using ih2

/-- C4 (signing mode): with the attached-signature list empty, if the key
pair of the first failing source `f` cannot be loaded (all earlier sources
loading successfully), `handleMultiSig` fails with the key-load error
naming `f` and returns the transaction unchanged — signatures already
produced for earlier sources are discarded; when every source loads, the
committed signature list has exactly one signature per source, in input
source order; and on any error in signing mode the transaction is
unchanged. -/
theorem C4_handleMultiSig_signing (env : SdkEnv) (t : TransactionRequest) :
    (∀ (pre : List Str) (f : Str) (post : List Str),
      (∀ g ∈ pre, ∃ kp, env.loadKeyPair g = .ok kp) →
      (∃ c, env.loadKeyPair f = .error c) →
      handleMultiSig env t [] (pre ++ f :: post) =
        (t, some (.keyLoadError f))) ∧
    (∀ signKeys : List Str,
      (∀ g ∈ signKeys, ∃ kp, env.loadKeyPair g = .ok kp) →
      handleMultiSig env t [] signKeys =
        ({ t with signatures := signKeys.map (sigOfSource env t) }, none)) ∧
    (∀ (signKeys : List Str) (t2 : TransactionRequest) (e : MultiSigErr),
      handleMultiSig env t [] signKeys = (t2, some e) → t2 = t) := by
  refine ⟨fun pre f post hpre hf => ?_, fun ks hks => ?_, fun ks t2 e h => ?_⟩
  · obtain ⟨c, hc⟩ := hf
    have hne : pre ++ f :: post ≠ [] := by simp
    have hA : signLoop env t (pre ++ f :: post) = .error (.keyLoadError f) := by
      refine (signLoop_prefix_error env t pre (f :: post) hpre _).mpr ?_
      simp [signLoop, hc]
    simp [handleMultiSig, hne, hA]
  · by_cases hne : ks = []
    · subst hne; simp [handleMultiSig]
    · simp [handleMultiSig, hne, signLoop_ok_map env t ks hks]
  · by_cases hne : ks = []
    · simp [handleMultiSig, hne] at h
    · simp only [handleMultiSig, hne, ne_eq, not_false_eq_true, and_true,
        not_true_eq_false, and_false, false_and, if_false, if_true] at h
      revert h
      split
      · intro h; simp_all
      · intro h; simp_all

/-- Concrete SDK environment for the C4 witness: keys `"k1"` and `"k2"`
load, key `"bad"` fails to load. -/
def signEnv : SdkEnv where
  loadKeyPair := fun f =>
    if f = strL "bad" then .error 3
    else if f = strL "k1" then .ok ⟨1⟩ else .ok ⟨2⟩
  getSignatureOfTx := fun t kp => ⟨t.payload + kp.id⟩
  loadProtoSig := fun _ => none
  verifySigForTx := fun _ _ => false

/-- Witness for C4: the failing source `"bad"` after the good source
`"k1"` aborts with the key-load error and the transaction is unchanged,
and with the good sources `["k1", "k2"]` the committed list has one
signature per source in order. -/
theorem C4_handleMultiSig_witness :
    handleMultiSig signEnv sampleTx [] [strL "k1", strL "bad"] =
      (sampleTx, some (.keyLoadError (strL "bad"))) ∧
    handleMultiSig signEnv sampleTx [] [strL "k1", strL "k2"] =
      ({ sampleTx with signatures := [⟨6⟩, ⟨7⟩] }, none) := by
  have h1 := (C4_handleMultiSig_signing signEnv sampleTx).1 [strL "k1"]
    (strL "bad") []
    (by intro g hg; simp only [List.mem_singleton] at hg
        exact ⟨⟨1⟩, by rw [hg]; rfl⟩)
    ⟨3, by rfl⟩
  have h2 := (C4_handleMultiSig_signing signEnv sampleTx).2.1
    [strL "k1", strL "k2"]
    (by intro g hg
        simp only [List.mem_cons, List.mem_singleton, List.not_mem_nil,
          or_false] at hg
        cases hg with
        | inl h => exact ⟨⟨1⟩, by rw [h]; rfl⟩
        | inr h => exact ⟨⟨2⟩, by rw [h]; rfl⟩)
  refine ⟨h1, ?_⟩
  rw [h2]
  decide

/-! ## Key persistence (`SaveAccount`)

`SaveAccount` is modelled as a trace of the file-system operations it
performs, driven by an environment deciding which operations succeed.
Failed operations leave no event and abort the function, mirroring the
early returns of the Go code.  File modes are the octal permission bits
passed at the call sites: `os.MkdirAll(dir, 0700)`,
`os.Create` (which is `os.OpenFile(..., 0666)`) for the public key, and
`os.OpenFile(fileName, os.O_RDWR|os.O_CREATE|os.O_TRUNC, 0400)` for the
private key. -/

/-- A key pair as stored by `SaveAccount` (`account.KeyPair`): algorithm
tag plus raw public and private key bytes. -/
structure AccKeyPair where
  algorithm : Algorithm
  pubkey : List Nat
  seckey : List Nat
  deriving DecidableEq

/-- One successful file-system operation.  `createFile p m` is a
mode-`m` creation via `os.Create`/`os.OpenFile` with `O_CREATE|O_TRUNC`;
`mkdirAll` creates the directory recursively with the given mode; `chmod`
and `remove` never occur in `SaveAccount`'s traces but are part of the
vocabulary so that their absence is expressible. -/
inductive FsEvent where
  | mkdirAll (path : Str) (perm : Nat)
  | createFile (path : Str) (perm : Nat)
  | write (path : Str) (content : Str)
  | chmod (path : Str) (perm : Nat)
  | remove (path : Str)
  deriving DecidableEq

/-- Environment deciding the outcome of each file-system operation and
providing the `common.Base58Encode` collaborator. -/
structure FsEnv where
  mkdirAllOk : Str → Bool
  createOk : Str → Bool
  writeOk : Str → Bool
  base58Encode : List Nat → Str

/-- Errors of `SaveAccount`.  `createFileErr p` is
`fmt.Errorf("create file %v err %v", p, err)`; `mkdirErr` and
`writeErr p` model the raw errors returned unwrapped (`return err`) from
`os.MkdirAll` and `(*os.File).WriteString` — both are `*fs.PathError`
values carrying the operated path. -/
inductive SaveErr where
  | mkdirErr (path : Str)
  | createFileErr (path : Str)
  | writeErr (path : Str)
  deriving DecidableEq

/-- The private-key file name computed by `SaveAccount`:
`dir + "/" + name` plus the algorithm suffix (the Go code tests the two
algorithms in two independent `if`s; exactly one matches). -/
def saveFileName (home name : Str) (algo : Algorithm) : Str :=
  accountDir home ++ strL "/" ++ name ++
    (match algo with
     | .ed25519 => strL "_ed25519"
     | .secp256k1 => strL "_secp256k1")

/-- The public-key file name: the private-key name plus `".pub"`. -/
def savePubName (home name : Str) (algo : Algorithm) : Str :=
  saveFileName home name algo ++ strL ".pub"

/-- Embeds `SaveAccount`: make the account directory with mode `0700`,
create and write `<base>.pub` (public key, base58), then create the
private-key file with mode `0400` at creation time and write the private
key (base58).  Returns the trace of successful operations and the
result. -/
def SaveAccount (env : FsEnv) (home name : Str) (kp : AccKeyPair) :
    List FsEvent × Except SaveErr Unit :=
  let dir := accountDir home
  if ¬ env.mkdirAllOk dir then ([], .error (.mkdirErr dir))
  else
    let fileName := saveFileName home name kp.algorithm
    let pubName := savePubName home name kp.algorithm
    let ev1 : List FsEvent := [.mkdirAll dir 0o700]
    if ¬ env.createOk pubName then (ev1, .error (.createFileErr pubName))
    else
      let ev2 := ev1 ++ [.createFile pubName 0o666]
      if ¬ env.writeOk pubName then (ev2, .error (.writeErr pubName))
      else
        let ev3 := ev2 ++ [.write pubName (env.base58Encode kp.pubkey)]
        if ¬ env.createOk fileName then (ev3, .error (.createFileErr fileName))
        else
          let ev4 := ev3 ++ [.createFile fileName 0o400]
          if ¬ env.writeOk fileName then (ev4, .error (.writeErr fileName))
          else (ev4 ++ [.write fileName (env.base58Encode kp.seckey)], .ok ())

/-- C2: on every input and every environment, the private-key file is only
ever created with mode `0400` — a mode with no group or other read/write
bits (`0400 % 0o1000 / 0o100` owner-only; mask `0o066` empty) — the mode
is set at creation time and never adjusted afterwards (no `chmod` event in
any trace), and every write is preceded by the recursive creation of the
account directory with owner-only mode `0700` as the first operation. -/
theorem C2_SaveAccount_private_key_mode (env : FsEnv) (home name : Str)
    (kp : AccKeyPair) :
    (∀ m, FsEvent.createFile (saveFileName home name kp.algorithm) m ∈
        (SaveAccount env home name kp).1 → m = 0o400) ∧
    0o400 &&& 0o066 = 0 ∧
    (∀ p m, FsEvent.chmod p m ∉ (SaveAccount env home name kp).1) ∧
    (∀ p c, FsEvent.write p c ∈ (SaveAccount env home name kp).1 →
      (SaveAccount env home name kp).1.head? =
        some (.mkdirAll (accountDir home) 0o700)) ∧
    0o700 &&& 0o077 = 0 := by
  have hne2 : saveFileName home name kp.algorithm ≠
      savePubName home name kp.algorithm := by
    intro h
    have hlen := congrArg List.length h
    rw [savePubName, List.length_append] at hlen
    have h4 : (strL ".pub").length = 4 := by decide
    omega
  unfold SaveAccount
  by_cases h1 : env.mkdirAllOk (accountDir home)
  · by_cases h2 : env.createOk (savePubName home name kp.algorithm)
    · by_cases h3 : env.writeOk (savePubName home name kp.algorithm)
      · by_cases h4 : env.createOk (saveFileName home name kp.algorithm)
        · by_cases h5 : env.writeOk (saveFileName home name kp.algorithm)
          · simp only [h1, h2, h3, h4, h5, not_true_eq_false, if_false]
            refine ⟨?_, by decide, by simp, by intro p c hm; rfl, by decide⟩
            intro m hm
            simp [hne2] at hm
            omega
          · simp only [h1, h2, h3, h4, h5, not_true_eq_false, if_false,
              not_false_eq_true, if_true]
            refine ⟨?_, by decide, by simp, by intro p c hm; rfl, by decide⟩
            intro m hm
            simp [hne2] at hm
            omega
        · simp only [h1, h2, h3, h4, not_true_eq_false, if_false,
            not_false_eq_true, if_true]
          refine ⟨?_, by decide, by simp, by intro p c hm; rfl, by decide⟩
          intro m hm
          simp [hne2] at hm
      · simp only [h1, h2, h3, not_true_eq_false, if_false,
          not_false_eq_true, if_true]
        refine ⟨?_, by decide, by simp, by intro p c hm; rfl, by decide⟩
        intro m hm
        simp [hne2] at hm
    · simp only [h1, h2, not_true_eq_false, if_false,
        not_false_eq_true, if_true]
      refine ⟨?_, by decide, by simp, by intro p c hm; rfl, by decide⟩
      intro m hm
      simp [hne2] at hm
  · simp only [h1, not_false_eq_true, if_true]
    refine ⟨?_, by decide, by simp, by simp, by decide⟩
    intro m hm
    simp at hm

/-- A concrete file-system environment in which every operation succeeds. -/
def fsEnvAllOk : FsEnv where
  mkdirAllOk := fun _ => true
  createOk := fun _ => true
  writeOk := fun _ => true
  base58Encode := fun _ => strL "b58"

/-- A concrete key pair for the persistence witnesses. -/
def sampleKp : AccKeyPair := ⟨.ed25519, [1, 2], [3, 4]⟩

/-- Witness for C2: on a fully successful run, the only creation of the
private-key file carries mode `0400` and the trace starts with the
`0700` recursive directory creation. -/
theorem C2_SaveAccount_witness :
    FsEvent.createFile
        (saveFileName (strL "/root") (strL "acc") Algorithm.ed25519) 0o400 ∈
      (SaveAccount fsEnvAllOk (strL "/root") (strL "acc") sampleKp).1 ∧
    (SaveAccount fsEnvAllOk (strL "/root") (strL "acc") sampleKp).1.head? =
      some (.mkdirAll (accountDir (strL "/root")) 0o700) := by
  constructor
  · decide
  · exact (C2_SaveAccount_private_key_mode fsEnvAllOk (strL "/root")
      (strL "acc") sampleKp).2.2.2.1
      (saveFileName (strL "/root") (strL "acc") Algorithm.ed25519)
      (strL "b58") (by decide)

/-- C9: with the account directory in place, any creation or write failure
of either key file aborts `SaveAccount` with an error that carries the
path of the failed file; and when the private-key write fails after the
public-key file was created and written, the error is surfaced while the
public-key creation and write remain in the trace and no file is ever
removed — the public-key file is not rolled back. -/
theorem C9_SaveAccount_io_errors (env : FsEnv) (home name : Str)
    (kp : AccKeyPair) (hdir : env.mkdirAllOk (accountDir home) = true) :
    (env.createOk (savePubName home name kp.algorithm) = false →
      (SaveAccount env home name kp).2 =
        .error (.createFileErr (savePubName home name kp.algorithm))) ∧
    (env.createOk (savePubName home name kp.algorithm) = true →
      env.writeOk (savePubName home name kp.algorithm) = false →
      (SaveAccount env home name kp).2 =
        .error (.writeErr (savePubName home name kp.algorithm))) ∧
    (env.createOk (savePubName home name kp.algorithm) = true →
      env.writeOk (savePubName home name kp.algorithm) = true →
      env.createOk (saveFileName home name kp.algorithm) = false →
      (SaveAccount env home name kp).2 =
        .error (.createFileErr (saveFileName home name kp.algorithm))) ∧
    (env.createOk (savePubName home name kp.algorithm) = true →
      env.writeOk (savePubName home name kp.algorithm) = true →
      env.createOk (saveFileName home name kp.algorithm) = true →
      env.writeOk (saveFileName home name kp.algorithm) = false →
      (SaveAccount env home name kp).2 =
        .error (.writeErr (saveFileName home name kp.algorithm)) ∧
      FsEvent.createFile (savePubName home name kp.algorithm) 0o666 ∈
        (SaveAccount env home name kp).1 ∧
      FsEvent.write (savePubName home name kp.algorithm)
          (env.base58Encode kp.pubkey) ∈ (SaveAccount env home name kp).1 ∧
      (∀ p, FsEvent.remove p ∉ (SaveAccount env home name kp).1)) := by
  refine ⟨fun h2 => ?_, fun h2 h3 => ?_, fun h2 h3 h4 => ?_,
    fun h2 h3 h4 h5 => ?_⟩
  · simp [SaveAccount, hdir, h2]
  · simp [SaveAccount, hdir, h2, h3]
  · simp [SaveAccount, hdir, h2, h3, h4]
  · refine ⟨by simp [SaveAccount, hdir, h2, h3, h4, h5], ?_, ?_, ?_⟩ <;>
      simp [SaveAccount, hdir, h2, h3, h4, h5]

/-- A file-system environment in which only the private-key write fails. -/
def fsEnvSecWriteFails : FsEnv where
  mkdirAllOk := fun _ => true
  createOk := fun _ => true
  writeOk := fun p => p ≠ saveFileName (strL "/root") (strL "acc") .ed25519
  base58Encode := fun _ => strL "b58"

/-- Witness for C9: the private-key write fails after the public key was
written; the path-carrying error is surfaced and the public-key write is
still in the trace. -/
theorem C9_SaveAccount_witness :
    (SaveAccount fsEnvSecWriteFails (strL "/root") (strL "acc") sampleKp).2 =
      .error (.writeErr (saveFileName (strL "/root") (strL "acc")
        Algorithm.ed25519)) ∧
    FsEvent.write (savePubName (strL "/root") (strL "acc") Algorithm.ed25519)
        (strL "b58") ∈
      (SaveAccount fsEnvSecWriteFails (strL "/root") (strL "acc") sampleKp).1 := by
  have h := (C9_SaveAccount_io_errors fsEnvSecWriteFails (strL "/root")
    (strL "acc") sampleKp (by decide)).2.2.2 (by decide) (by decide)
    (by decide) (by decide)
  exact ⟨h.1, h.2.2.1⟩

/-! ## Amount limit parsing (`ParseAmountLimit`)

`ParseAmountLimit` delegates numeric validation to Go's
`strconv.ParseFloat(value, 64)`.  `goParseFloatOk` models the set of
strings that parser accepts with a nil error (Go 1.13+ literal syntax,
`strconv/atof.go`): the signed special spellings of infinity, `NaN`,
and decimal or hexadecimal floating literals with digit-separating
underscores, rejecting any literal whose exact value rounds to an
infinity (`ErrRange` on overflow; values that underflow to zero parse
without error).  Rounding at the overflow boundary is modelled by the
exact comparison with `2^1024 - 2^970`. -/

/-- ASCII lower-casing as used by strconv when comparing letters. -/
def lowerC (c : Char) : Char :=
  if 'A' ≤ c ∧ c ≤ 'Z' then Char.ofNat (c.toNat + 32) else c

/-- Decimal digit test. -/
def isDigitC (c : Char) : Bool := decide ('0' ≤ c ∧ c ≤ '9')

/-- Digit value in base 10, or base 16 when `hex` is set. -/
def digitVal (hex : Bool) (c : Char) : Option Nat :=
  if '0' ≤ c ∧ c ≤ '9' then some (c.toNat - '0'.toNat)
  else if hex ∧ 'a' ≤ lowerC c ∧ lowerC c ≤ 'f' then
    some ((lowerC c).toNat - 'a'.toNat + 10)
  else none

/-- The special spellings accepted by strconv's `special` once full
consumption is required: `inf` and `infinity` with an optional sign, and
unsigned `nan`, all case-insensitively. -/
def specialOk (s : Str) : Bool :=
  match s with
  | [] => false
  | c :: rest =>
    if c = '+' ∨ c = '-' then
      rest.map lowerC = strL "inf" ∨ rest.map lowerC = strL "infinity"
    else
      s.map lowerC = strL "inf" ∨ s.map lowerC = strL "infinity" ∨
        s.map lowerC = strL "nan"

/-- The scan of strconv's `underscoreOK`: `saw` classifies the previous
character (`'^'` start, `'0'` digit or base prefix, `'_'` underscore,
`'!'` anything else); every underscore must sit between digits. -/
def underscoreScan (hex : Bool) : Char → Str → Bool
  | saw, [] => saw != '_'
  | saw, c :: rest =>
    if isDigitC c ∨ (hex ∧ 'a' ≤ lowerC c ∧ lowerC c ≤ 'f') then
      underscoreScan hex '0' rest
    else if c = '_' then
      if saw = '0' then underscoreScan hex '_' rest else false
    else if saw = '_' then false
    else underscoreScan hex '!' rest

/-- strconv's `underscoreOK` over a fully consumed literal: optional
sign, optional base prefix (which counts as a digit on its left), then
the scan. -/
def underscoreOK (s : Str) : Bool :=
  let s1 := match s with
    | c :: rest => if c = '-' ∨ c = '+' then rest else s
    | [] => s
  match s1 with
  | c0 :: c1 :: rest =>
    if c0 = '0' ∧ (lowerC c1 = 'b' ∨ lowerC c1 = 'o' ∨ lowerC c1 = 'x') then
      underscoreScan (lowerC c1 = 'x') '0' rest
    else underscoreScan false '^' s1
  | _ => underscoreScan false '^' s1

/-- State of the mantissa scan of strconv's `readFloat`: accumulated
digit value `m` (full precision), number of digits `nd`, digits after the
dot `frac`, and whether a dot or an underscore was seen. -/
structure MantState where
  m : Nat
  nd : Nat
  frac : Nat
  sawdot : Bool
  sawund : Bool
  deriving DecidableEq

/-- The mantissa loop of `readFloat`: consumes digits, underscores and at
most one dot, returning the state and the unconsumed remainder. -/
def mantLoop (hex : Bool) (st : MantState) : Str → MantState × Str
  | [] => (st, [])
  | c :: rest =>
    if c = '_' then mantLoop hex { st with sawund := true } rest
    else if c = '.' then
      if st.sawdot then (st, c :: rest)
      else mantLoop hex { st with sawdot := true } rest
    else
      match digitVal hex c with
      | some d =>
        mantLoop hex { st with
          m := st.m * (if hex then 16 else 10) + d
          nd := st.nd + 1
          frac := if st.sawdot then st.frac + 1 else st.frac } rest
      | none => (st, c :: rest)

/-- The exponent-digit loop of `readFloat`, with Go's clamp that stops
growing the exponent beyond 10000. -/
def expLoop (e : Nat) (sawund : Bool) : Str → Nat × Bool × Str
  | [] => (e, sawund, [])
  | c :: rest =>
    if isDigitC c then
      expLoop (if e < 10000 then e * 10 + (c.toNat - '0'.toNat) else e)
        sawund rest
    else if c = '_' then expLoop e true rest
    else (e, sawund, c :: rest)

/-- An accepted floating literal: its exact magnitude is
`mant * base ^ exp` with base 10 for decimal and base 2 for hexadecimal
literals. -/
structure FloatVal where
  mant : Nat
  exp : Int
  hex : Bool
  deriving DecidableEq

/-- Models `readFloat` of `strconv/atof.go` together with `ParseFloat`'s
full-consumption requirement: `none` on a syntax error, otherwise the
exact magnitude of the literal.  The sign never affects acceptance or
overflow and is dropped. -/
def readFloatVal (s : Str) : Option FloatVal :=
  let s1 := match s with
    | c :: rest => if c = '+' ∨ c = '-' then rest else s
    | [] => s
  let hs2 : Bool × Str := match s1 with
    | c0 :: c1 :: rest =>
      if c0 = '0' ∧ lowerC c1 = 'x' ∧ rest ≠ [] then (true, rest)
      else (false, s1)
    | _ => (false, s1)
  let hex := hs2.1
  let sr := mantLoop hex ⟨0, 0, 0, false, false⟩ hs2.2
  let st := sr.1
  if st.nd = 0 then none
  else
    match sr.2 with
    | c :: rest =>
      if lowerC c = (if hex then 'p' else 'e') then
        let er : Int × Str := match rest with
          | d :: r2 =>
            if d = '+' then (1, r2)
            else if d = '-' then (-1, r2) else (1, rest)
          | [] => (1, [])
        match er.2 with
        | d :: _ =>
          if isDigitC d then
            let evr := expLoop 0 st.sawund er.2
            if evr.2.2 = [] ∧ (evr.2.1 = false ∨ underscoreOK s) then
              some ⟨st.m, er.1 * (evr.1 : Int) -
                (if hex then 4 * (st.frac : Int) else (st.frac : Int)), hex⟩
            else none
          else none
        | [] => none
      else none
    | [] =>
      if hex then none
      else if st.sawund = false ∨ underscoreOK s then
        some ⟨st.m, -(st.frac : Int), false⟩
      else none

/-- The smallest magnitude that rounds to an infinity in IEEE-754
binary64 round-to-nearest-even: `2 ^ 1024 - 2 ^ 970`. -/
def overflowBound : Nat := 2 ^ 1024 - 2 ^ 970

/-- Whether the exact value `mant * base ^ exp` overflows binary64, i.e.
`strconv.ParseFloat` returns `ErrRange` for the literal. -/
def floatOverflows (v : FloatVal) : Bool :=
  let base : Nat := if v.hex then 2 else 10
  if v.mant = 0 then false
  else if 0 ≤ v.exp then
    decide (overflowBound ≤ v.mant * base ^ v.exp.toNat)
  else
    decide (overflowBound * base ^ (-v.exp).toNat ≤ v.mant)

/-- Models `strconv.ParseFloat(s, 64)` returning a nil error. -/
def goParseFloatOk (s : Str) : Bool :=
  specialOk s ||
    match readFloatVal s with
    | none => false
    | some v => ! floatOverflows v

/-- The `rpcpb.AmountLimit` record: token name and the verbatim value
string. -/
structure AmountLimit where
  token : Str
  value : Str
  deriving DecidableEq

/-- Errors of `ParseAmountLimit`: `invalidLimitSyntax g` is
`fmt.Errorf("invalid amount limit %v", gram)` naming the offending group;
`invalidLimitValue` is `fmt.Errorf("invalid amount limit %v %v",
amountLimit, err)` — note the Go message carries the zero float and the
parse error, not the group. -/
inductive AmountErr where
  | invalidLimitSyntax (group : Str)
  | invalidLimitValue
  deriving DecidableEq

/-- The loop body of `ParseAmountLimit` over the `|`-separated groups:
split each group on every `:`, require exactly two parts, validate the
value through the float parser unless it is the literal `"unlimited"`,
and collect `{token, value}` records in input order. -/
def parseGroups : List Str → Except AmountErr (List AmountLimit)
  | [] => .ok []
  | gram :: rest =>
    let limit := goSplit ':' gram
    if limit.length ≠ 2 then .error (.invalidLimitSyntax gram)
    else if limit.getD 1 [] ≠ strL "unlimited" ∧
        goParseFloatOk (limit.getD 1 []) = false then
      .error .invalidLimitValue
    else
      match parseGroups rest with
      | .error e => .error e
      | .ok l => .ok (⟨limit.headD [], limit.getD 1 []⟩ :: l)

/-- Embeds `ParseAmountLimit`: the empty string yields the empty list,
otherwise the input is split on `|` and the groups are parsed in order. -/
def ParseAmountLimit (limitStr : Str) : Except AmountErr (List AmountLimit) :=
  if limitStr = [] then .ok []
  else parseGroups (goSplit '|' limitStr)

/-- The token part of a group (first `:`-separated part). -/
def groupToken (g : Str) : Str := (goSplit ':' g).headD []

/-- The value part of a group (second `:`-separated part). -/
def groupValue (g : Str) : Str := (goSplit ':' g).getD 1 []

/-- A group `ParseAmountLimit` accepts: exactly two `:`-separated parts,
and a value that is the literal `"unlimited"` or passes the float
parser. -/
def GroupAccepted (g : Str) : Prop :=
  (goSplit ':' g).length = 2 ∧
    (groupValue g = strL "unlimited" ∨ goParseFloatOk (groupValue g) = true)

instance (g : Str) : Decidable (GroupAccepted g) := by
  unfold GroupAccepted
  infer_instance

theorem parseGroups_cons_accepted (g : Str) (gs : List Str)
    (hg : GroupAccepted g) :
    parseGroups (g :: gs) =
      (parseGroups gs).map (fun l => ⟨groupToken g, groupValue g⟩ :: l) := by
  obtain ⟨h1, h2⟩ := hg
  have hcond : ¬((goSplit ':' g).getD 1 [] ≠ strL "unlimited" ∧
      goParseFloatOk ((goSplit ':' g).getD 1 []) = false) := by
    rcases h2 with h | h
    · exact fun hc => hc.1 h
    · intro hc
      rw [groupValue] at h
      rw [h] at hc
      exact absurd hc.2 (by decide)
  simp only [parseGroups]
  rw [if_neg (not_not_intro h1), if_neg hcond]
  cases parseGroups gs <;> rfl

theorem parseGroups_cons_twoPartsFail (g : Str) (gs : List Str)
    (h : (goSplit ':' g).length ≠ 2) :
    parseGroups (g :: gs) = .error (.invalidLimitSyntax g) := by
  simp only [parseGroups]
  rw [if_pos h]

theorem parseGroups_cons_value (g : Str) (gs : List Str)
    (h1 : (goSplit ':' g).length = 2)
    (h2 : groupValue g ≠ strL "unlimited")
    (h3 : goParseFloatOk (groupValue g) = false) :
    parseGroups (g :: gs) = .error .invalidLimitValue := by
  simp only [parseGroups]
  rw [if_neg (not_not_intro h1), if_pos ⟨h2, h3⟩]

theorem parseGroups_prefix_error (pre rest : List Str)
    (hpre : ∀ p ∈ pre, GroupAccepted p) (e : AmountErr) :
    parseGroups (pre ++ rest) = .error e ↔ parseGroups rest = .error e := by
  induction pre with
  | nil => simp
  | cons p pre ih =>
    have hp := hpre p (by simp)
    have ih2 := ih fun q hq => hpre q (by simp [hq])
    rw [List.cons_append, parseGroups_cons_accepted p _ hp]
    cases hA : parseGroups (pre ++ rest) with
    | error e2 => rw [hA] at ih2; simpa [Except.map] using ih2
    | ok l => rw [hA] at ih2; simpa [Except.map] using ih2

theorem parseGroups_ok_iff (gs : List Str) :
    (∃ l, parseGroups gs = .ok l) ↔ ∀ g ∈ gs, GroupAccepted g := by
  induction gs with
  | nil => simp [parseGroups]
  | cons g gs ih =>
    constructor
    · rintro ⟨l, hl⟩
      by_cases h1 : (goSplit ':' g).length = 2
      · by_cases h2 : groupValue g = strL "unlimited" ∨
            goParseFloatOk (groupValue g) = true
        · have hacc : GroupAccepted g := ⟨h1, h2⟩
          rw [parseGroups_cons_accepted g gs hacc] at hl
          intro q hq
          rcases List.mem_cons.mp hq with rfl | hq2
          · exact hacc
          · cases hA : parseGroups gs with
            | error e2 => rw [hA] at hl; simp [Except.map] at hl
            | ok l2 => exact ih.mp ⟨l2, hA⟩ q hq2
        · push_neg at h2
          rw [parseGroups_cons_value g gs h1 h2.1
            (by simpa using h2.2)] at hl
          simp at hl
      · rw [parseGroups_cons_twoPartsFail g gs h1] at hl
        simp at hl
    · intro h
      have hacc : GroupAccepted g := h g (by simp)
      obtain ⟨l2, hl2⟩ := ih.mpr fun q hq => h q (by simp [hq])
      refine ⟨⟨groupToken g, groupValue g⟩ :: l2, ?_⟩
      rw [parseGroups_cons_accepted g gs hacc, hl2]
      rfl

theorem parseGroups_ok_map (gs : List Str) (l : List AmountLimit)
    (h : parseGroups gs = .ok l) :
    l = gs.map fun g => ⟨groupToken g, groupValue g⟩ := by
  induction gs generalizing l with
  | nil =>
    simp only [parseGroups] at h
    cases h
    simp
  | cons g gs ih =>
    have hacc : GroupAccepted g :=
      (parseGroups_ok_iff (g :: gs)).mp ⟨l, h⟩ g (by simp)
    rw [parseGroups_cons_accepted g gs hacc] at h
    cases hA : parseGroups gs with
    | error e2 => rw [hA] at h; simp [Except.map] at h
    | ok l2 =>
      rw [hA] at h
      simp only [Except.map] at h
      cases h
      simp [ih l2 hA]

/-- Splitting on only the FIRST occurrence of the separator — the reading
of the claim wording "each group is split on the first `:` into exactly
two parts".  Stated from the claim text for comparison with the code's
`goSplit`, which splits on every occurrence. -/
def splitOnFirst (sep : Char) (s : Str) : List Str :=
  let p := s.span fun c => c != sep
  match p.2 with
  | [] => [p.1]
  | _ :: rest => [p.1, rest]

/-- Counterexample to C5 as stated: the group `"iost:1:2"` splits on its
FIRST colon into exactly two parts (`"iost"` and `"1:2"`), so under the
claim's description it passes the two-part syntax check; the code splits
on every colon and instead rejects the whole group with the syntax error
naming it. -/
theorem C5_counterexample_split_on_first :
    (splitOnFirst ':' (strL "iost:1:2")).length = 2 ∧
    splitOnFirst ':' (strL "iost:1:2") = [strL "iost", strL "1:2"] ∧
    ParseAmountLimit (strL "iost:1:2") =
      .error (.invalidLimitSyntax (strL "iost:1:2")) := by
  refine ⟨by decide, by decide, ?_⟩
  rfl

set_option exponentiation.threshold 1100 in
set_option maxRecDepth 4000 in
/-- C5 (amended: groups are split on EVERY `:` and must yield exactly two
parts, i.e. contain exactly one colon): the empty input parses to the
empty list; the five concrete examples of the claim behave as stated; and
in general the first group, all earlier groups accepted, that does not
split into exactly two parts makes the call fail with the syntax error
naming that group. -/
theorem C5_ParseAmountLimit_grammar :
    ParseAmountLimit [] = .ok [] ∧
    ParseAmountLimit (strL "iost:unlimited") =
      .ok [⟨strL "iost", strL "unlimited"⟩] ∧
    ParseAmountLimit (strL "iost:10.5|ram:unlimited") =
      .ok [⟨strL "iost", strL "10.5"⟩, ⟨strL "ram", strL "unlimited"⟩] ∧
    ParseAmountLimit (strL "iost") =
      .error (.invalidLimitSyntax (strL "iost")) ∧
    ParseAmountLimit (strL "iost:1:2") =
      .error (.invalidLimitSyntax (strL "iost:1:2")) ∧
    ParseAmountLimit (strL "iost:abc") = .error .invalidLimitValue ∧
    (∀ (s : Str) (pre : List Str) (g : Str) (post : List Str),
      s ≠ [] → goSplit '|' s = pre ++ g :: post →
      (∀ p ∈ pre, GroupAccepted p) → (goSplit ':' g).length ≠ 2 →
      ParseAmountLimit s = .error (.invalidLimitSyntax g)) := by
  refine ⟨rfl, rfl, rfl, rfl, rfl, rfl,
    fun s pre g post hs hsplit hpre h1 => ?_⟩
  rw [ParseAmountLimit, if_neg hs, hsplit]
  exact (parseGroups_prefix_error pre (g :: post) hpre _).mpr
    (parseGroups_cons_twoPartsFail g post h1)

set_option exponentiation.threshold 1100 in
set_option maxRecDepth 4000 in
/-- Witness for C5's general clause: in `"t:1|bad"` the first group is
accepted and the second has no colon, so the call fails with the syntax
error naming `"bad"`. -/
theorem C5_ParseAmountLimit_witness :
    ParseAmountLimit (strL "t:1|bad") =
      .error (.invalidLimitSyntax (strL "bad")) :=
  C5_ParseAmountLimit_grammar.2.2.2.2.2.2 (strL "t:1|bad") [strL "t:1"]
    (strL "bad") [] (by decide) (by decide)
    (by intro p hp
        simp only [List.mem_singleton] at hp
        subst hp
        exact ⟨by decide, Or.inr (by decide)⟩)
    (by decide)

/-- Leading decimal digits of a string: their count and the remainder. -/
def decDigits : Str → Nat × Str
  | [] => (0, [])
  | c :: rest =>
    if isDigitC c then
      let p := decDigits rest
      (p.1 + 1, p.2)
    else (0, c :: rest)

/-- A finite decimal numeral in the sense of the claim wording ("the
value must parse as a finite decimal number"): optional sign, decimal
digits with an optional fractional part (at least one digit overall), and
an optional signed decimal exponent.  Stated from the claim text, for
comparison with the platform float parser the code actually calls. -/
def isFiniteDecimalNumber (s : Str) : Bool :=
  let s1 : Str := match s with
    | c :: rest => if c = '+' ∨ c = '-' then rest else s
    | [] => s
  let p1 := decDigits s1
  let p2 : Nat × Str := match p1.2 with
    | '.' :: r => decDigits r
    | _ => (0, p1.2)
  if p1.1 + p2.1 = 0 then false
  else
    match p2.2 with
    | [] => true
    | c :: r3 =>
      if lowerC c = 'e' then
        let r4 : Str := match r3 with
          | d :: rr => if d = '+' ∨ d = '-' then rr else r3
          | [] => r3
        let p3 := decDigits r4
        p3.1 != 0 && p3.2.isEmpty
      else false

/-- Counterexample to C6 as stated: `"inf"` is not a finite decimal
number, yet the platform float parser accepts it without error, so the
code accepts the group `"iost:inf"` and stores the value verbatim instead
of failing with the invalid-limit-value error the claim requires for
values that are not finite decimal numbers. -/
theorem C6_counterexample_infinite_value :
    isFiniteDecimalNumber (strL "inf") = false ∧
    goParseFloatOk (strL "inf") = true ∧
    ParseAmountLimit (strL "iost:inf") =
      .ok [⟨strL "iost", strL "inf"⟩] := by
  refine ⟨by decide, by decide, ?_⟩
  rfl

/-- C6 (amended: the value must be accepted by the platform float parser
`strconv.ParseFloat`, which also accepts infinity and NaN spellings and
hexadecimal floats and rejects out-of-range decimals): every successful
parse stores, for each group in input order, the token and the verbatim
value substrings — the parsed numeric result is discarded; a non-empty
input parses successfully exactly when every group has two `:`-parts and
a value that is `"unlimited"` (stored without numeric validation) or
accepted by the float parser; and the first group whose value is neither
`"unlimited"` nor accepted by the float parser makes the whole call fail
with the invalid-limit-value error. -/
theorem C6_ParseAmountLimit_value_semantics :
    (∀ (s : Str) (l : List AmountLimit), ParseAmountLimit s = .ok l →
      l = if s = [] then []
          else (goSplit '|' s).map fun g => ⟨groupToken g, groupValue g⟩) ∧
    (∀ s : Str, s ≠ [] →
      ((∃ l, ParseAmountLimit s = .ok l) ↔
        ∀ g ∈ goSplit '|' s, GroupAccepted g)) ∧
    (∀ (s : Str) (pre : List Str) (g : Str) (post : List Str),
      s ≠ [] → goSplit '|' s = pre ++ g :: post →
      (∀ p ∈ pre, GroupAccepted p) → (goSplit ':' g).length = 2 →
      groupValue g ≠ strL "unlimited" →
      goParseFloatOk (groupValue g) = false →
      ParseAmountLimit s = .error .invalidLimitValue) := by
  refine ⟨fun s l h => ?_, fun s hs => ?_,
    fun s pre g post hs hsplit hpre h1 h2 h3 => ?_⟩
  · by_cases hs : s = []
    · rw [ParseAmountLimit, if_pos hs] at h
      cases h
      rw [if_pos hs]
    · rw [ParseAmountLimit, if_neg hs] at h
      rw [if_neg hs]
      exact parseGroups_ok_map _ l h
  · rw [ParseAmountLimit, if_neg hs]
    exact parseGroups_ok_iff _
  · rw [ParseAmountLimit, if_neg hs, hsplit]
    exact (parseGroups_prefix_error pre (g :: post) hpre _).mpr
      (parseGroups_cons_value g post h1 h2 h3)

/-- Witness for C6: the group `"t:xyz"` has two parts but a value that is
neither `"unlimited"` nor float-parseable, so the call fails with the
invalid-limit-value error. -/
theorem C6_ParseAmountLimit_witness :
    ParseAmountLimit (strL "t:xyz") = .error .invalidLimitValue :=
  C6_ParseAmountLimit_value_semantics.2.2 (strL "t:xyz") [] (strL "t:xyz")
    [] (by decide) (by decide) (by intro p hp; simp at hp)
    (by decide) (by decide) (by decide)

end Iwallet
